import Mathlib

/-!
Verification of the anti-abuse vote pipeline of the `xjy` forum backend.

The Rust sources are shallowly embedded: SQL tables become finite maps /
association lists, `sea_orm` queries become pure functions on an explicit
database state, and fallible operations return `Except AppError`.  Rust
strings are modelled as lists of bytes (`List Nat`, each `< 256`), matching
the byte-oriented treatment they receive in `utils/pow.rs`.
-/

/-- Error type of the application, from `src/error.rs` (only the variants the
embedded services construct are modelled; payload strings are dropped). -/
inductive AppError where
  | Validation : AppError
  | NotFound : AppError
  | Internal : AppError
deriving DecidableEq, Repr

/-! ### Byte-string literals

Rust string literals that the embedded code compares against or emits,
written as their ASCII byte sequences. -/

/-- The byte string `"post"`. -/
def strPost : List Nat := [112, 111, 115, 116]

/-- The byte string `"comment"`. -/
def strComment : List Nat := [99, 111, 109, 109, 101, 110, 116]

/-! ## VoteService (`src/services/vote.rs`)

The database state visible to `VoteService::vote`: the `posts` and
`comments` tables (only the counter columns matter here), and the `votes`
table with its unique-per-(user, target) rows. -/

/-- The `upvotes` / `downvotes` counter columns of a votable row. -/
structure Counters where
  upvotes : Int
  downvotes : Int
deriving DecidableEq, Repr

/-- One row of the `votes` table. -/
structure VoteRow where
  id : Int
  user_id : Int
  target_type : List Nat
  target_id : Int
  value : Int
deriving DecidableEq, Repr

/-- Database state touched by `VoteService`. -/
structure VoteDb where
  posts : Int → Option Counters
  comments : Int → Option Counters
  votes : List VoteRow
  nextVoteId : Int

/-- The `VoteModel` the service returns (timestamps dropped). -/
structure VoteModel where
  id : Int
  user_id : Int
  target_type : List Nat
  target_id : Int
  value : Int
deriving DecidableEq, Repr

/-- `VoteService::update_counters` (vote.rs lines 102-151).  `delta` encodes
both magnitude and direction exactly as in the source: a swing
(`delta.abs() > 1`) updates both columns with a `GREATEST(..., 0)` clamp on
the decremented one, while `|delta| <= 1` adds `delta` to `upvotes` when
`delta > 0` and adds `-delta` to `downvotes` otherwise.  An unknown target
type returns the state unchanged (the source returns `Ok(())`), and an
`UPDATE` whose `WHERE id` matches no row is a no-op. -/
def update_counters (db : VoteDb) (target_type : List Nat) (target_id : Int)
    (delta : Int) : VoteDb :=
  let apply : Counters → Counters := fun c =>
    if 1 < |delta| then
      if 0 < delta then
        { upvotes := c.upvotes + 1, downvotes := max (c.downvotes - 1) 0 }
      else
        { downvotes := c.downvotes + 1, upvotes := max (c.upvotes - 1) 0 }
    else
      if 0 < delta then
        { c with upvotes := c.upvotes + delta }
      else
        { c with downvotes := c.downvotes + (-delta) }
  if target_type = strPost then
    { db with posts := fun i => if i = target_id then (db.posts i).map apply else db.posts i }
  else if target_type = strComment then
    { db with comments := fun i => if i = target_id then (db.comments i).map apply else db.comments i }
  else
    db

/-- The `Vote::find()` filter chain of vote.rs lines 50-55: the unique row for
`(user_id, target_type, target_id)` if present. -/
def findVote (db : VoteDb) (user_id : Int) (target_type : List Nat)
    (target_id : Int) : Option VoteRow :=
  db.votes.find? fun v =>
    v.user_id == user_id && v.target_type == target_type && v.target_id == target_id

/-- vote.rs lines 49-99: the read-modify-write `VoteService::vote` performs
after validation (read current vote; toggle-off / update / insert; counter
update). -/
def voteCore (db : VoteDb) (user_id : Int) (target_type : List Nat)
    (target_id : Int) (value : Int) : Except AppError (VoteModel × VoteDb) :=
  let existing := findVote db user_id target_type target_id
  let old_value : Int := (existing.map (·.value)).getD 0
  match existing with
  | some existing_vote =>
      if existing_vote.value = value then
        -- Same vote again: delete the row (toggle off), update counters by
        -- `-old_value`, return a synthetic model with value 0.
        let db1 := { db with votes := db.votes.filter (·.id ≠ existing_vote.id) }
        let db2 := update_counters db1 target_type target_id (-old_value)
        .ok ({ id := 0, user_id := user_id, target_type := target_type,
               target_id := target_id, value := 0 }, db2)
      else
        -- Different vote: update the row's value, then swing counters by
        -- `value - old_value`.
        let updated : VoteRow := { existing_vote with value := value }
        let db1 := { db with
          votes := db.votes.map fun v => if v.id = existing_vote.id then updated else v }
        let db2 := update_counters db1 target_type target_id (value - old_value)
        .ok ({ id := updated.id, user_id := updated.user_id,
               target_type := updated.target_type, target_id := updated.target_id,
               value := updated.value }, db2)
  | none =>
      -- New vote: insert a fresh row, then add `value` to the counters.
      let row : VoteRow := { id := db.nextVoteId, user_id := user_id,
                             target_type := target_type, target_id := target_id,
                             value := value }
      let db1 := { db with votes := db.votes ++ [row], nextVoteId := db.nextVoteId + 1 }
      let db2 := update_counters db1 target_type target_id value
      .ok ({ id := row.id, user_id := row.user_id, target_type := row.target_type,
             target_id := row.target_id, value := row.value }, db2)

/-- `VoteService::vote` (vote.rs lines 19-100).  Returns the `VoteModel` the
service returns together with the resulting database state; every failure
path of the source precedes any mutation, so an error leaves the state
unchanged. -/
def VoteService_vote (db : VoteDb) (user_id : Int) (target_type : List Nat)
    (target_id : Int) (value : Int) : Except AppError (VoteModel × VoteDb) :=
  if value ≠ 1 ∧ value ≠ -1 then
    .error .Validation
  else if target_type = strPost then
    match db.posts target_id with
    | none => .error .NotFound
    | some _ => voteCore db user_id target_type target_id value
  else if target_type = strComment then
    match db.comments target_id with
    | none => .error .NotFound
    | some _ => voteCore db user_id target_type target_id value
  else
    .error .Validation

/-! ## Handler karma policy (`src/handlers/vote.rs` lines 76-80 and 158-162) -/

/-- The `points_delta` match of `vote_post` / `vote_comment`: the karma delta
derived from the `(old_value, new_value)` transition reported by the vote
service. -/
def points_delta (old_value new_value : Int) : Int :=
  if (old_value = 0 ∧ new_value = 1) ∨ (old_value = -1 ∧ new_value = 1) then 1
  else if (old_value = 1 ∧ new_value = 0) ∨ (old_value = 1 ∧ new_value = -1) then -1
  else 0

/-! ## PointsService (`src/services/points.rs`)

Database state: the `users` table (karma column), the append-only
`user_points_ledger` table, and the author columns of `posts` / `comments`
(all that `apply_vote_points` reads from them). -/

/-- One row of the `user_points_ledger` table (timestamps dropped; `reason`
is determined by `ref_type` in the source and is carried along). -/
structure LedgerEntry where
  user_id : Int
  delta : Int
  reason : List Nat
  ref_type : List Nat
  ref_id : Int
  actor_user_id : Int
deriving DecidableEq, Repr

/-- The byte string `"vote_on_post"`. -/
def strVoteOnPost : List Nat :=
  [118, 111, 116, 101, 95, 111, 110, 95, 112, 111, 115, 116]

/-- The byte string `"vote_on_comment"`. -/
def strVoteOnComment : List Nat :=
  [118, 111, 116, 101, 95, 111, 110, 95, 99, 111, 109, 109, 101, 110, 116]

/-- Database state touched by `PointsService`: `users` maps an existing user
id to its karma, `postAuthor` / `commentAuthor` are the `user_id` columns of
the content tables. -/
structure PointsDb where
  users : Int → Option Int
  ledger : List LedgerEntry
  postAuthor : Int → Option Int
  commentAuthor : Int → Option Int

/-- `PointsService::apply_vote_points` (points.rs lines 20-83).  The single
transaction (ledger insert + karma `UPDATE`) commits only when the karma
update matched a row; a `rows_affected == 0` result aborts the transaction
with `NotFound`, leaving the state unchanged. -/
def apply_vote_points (db : PointsDb) (actor_user_id : Int)
    (target_type : List Nat) (target_id : Int) (delta_points : Int) :
    Except AppError PointsDb :=
  if delta_points = 0 then .ok db
  else
    let lookup : Except AppError (Int × List Nat × List Nat) :=
      if target_type = strPost then
        match db.postAuthor target_id with
        | none => .error .NotFound
        | some a => .ok (a, strPost, strVoteOnPost)
      else if target_type = strComment then
        match db.commentAuthor target_id with
        | none => .error .NotFound
        | some a => .ok (a, strComment, strVoteOnComment)
      else .error .Validation
    match lookup with
    | .error e => .error e
    | .ok (author_user_id, ref_type, reason) =>
        if author_user_id = actor_user_id then .ok db
        else
          match db.users author_user_id with
          | none => .error .NotFound
          | some karma =>
              let entry : LedgerEntry :=
                { user_id := author_user_id, delta := delta_points,
                  reason := reason, ref_type := ref_type, ref_id := target_id,
                  actor_user_id := actor_user_id }
              .ok { db with
                ledger := db.ledger ++ [entry],
                users := fun u => if u = author_user_id then some (karma + delta_points)
                                  else db.users u }

/-- Whether a ledger row matches a `(ref_type, ref_id)` reference (the
filter of `rollback_by_ref`). -/
def matchesRef (ref_type : List Nat) (ref_id : Int) (e : LedgerEntry) : Bool :=
  e.ref_type == ref_type && e.ref_id == ref_id

/-- Subtract `e.delta` from `e.user_id`'s karma; a user row that no longer
exists makes the `UPDATE` match zero rows, which the source does not treat
as an error. -/
def subtractEntry (users : Int → Option Int) (e : LedgerEntry) : Int → Option Int :=
  fun u => if u = e.user_id then (users u).map (· - e.delta) else users u

/-- `PointsService::rollback_by_ref` (points.rs lines 86-115): in one
transaction, select all ledger rows for the reference, subtract each row's
`delta` from its user's karma, delete the rows, and return how many rows
were selected. -/
def rollback_by_ref (db : PointsDb) (ref_type : List Nat) (ref_id : Int) :
    Except AppError (Int × PointsDb) :=
  let entries := db.ledger.filter (matchesRef ref_type ref_id)
  let users1 := entries.foldl subtractEntry db.users
  let ledger1 := db.ledger.filter fun e => ¬ matchesRef ref_type ref_id e
  .ok (entries.length, { db with users := users1, ledger := ledger1 })

/-! ## AdminService (`src/services/admin.rs` lines 78-102)

`admin_delete_post` / `admin_delete_comment` verify the target exists,
delete it, and then call `rollback_by_ref`, discarding its result with
`let _ = ...`.  Database failures inside `rollback_by_ref` (any `?` on a
`sea_orm` call before its commit) are modelled by the `dbFail` flag: when it
is set the rollback transaction aborts with an `Internal` error and changes
nothing. -/

/-- Content tables visible to the admin service plus the points state. -/
structure AdminDb where
  posts : Int → Option Unit
  comments : Int → Option Unit
  points : PointsDb

/-- `rollback_by_ref` together with the possibility of a database failure:
`dbFail = true` models any of its fallible database calls returning `Err`,
which aborts the uncommitted transaction. -/
def rollback_by_ref_fallible (dbFail : Bool) (db : PointsDb)
    (ref_type : List Nat) (ref_id : Int) : Except AppError (Int × PointsDb) :=
  if dbFail then .error .Internal else rollback_by_ref db ref_type ref_id

/-- `AdminService::admin_delete_post` (admin.rs lines 78-89).  The result of
`rollback_by_ref` is discarded (`let _ = ...`), so the function returns
`Ok(())` whether or not the rollback succeeded. -/
def admin_delete_post (dbFail : Bool) (db : AdminDb) (post_id : Int) :
    Except AppError (Unit × AdminDb) :=
  match db.posts post_id with
  | none => .error .NotFound
  | some _ =>
      let db1 := { db with posts := fun i => if i = post_id then none else db.posts i }
      let db2 :=
        match rollback_by_ref_fallible dbFail db1.points strPost post_id with
        | .ok (_, p) => { db1 with points := p }
        | .error _ => db1
      .ok ((), db2)

/-- `AdminService::admin_delete_comment` (admin.rs lines 91-102), same shape
as `admin_delete_post`. -/
def admin_delete_comment (dbFail : Bool) (db : AdminDb) (comment_id : Int) :
    Except AppError (Unit × AdminDb) :=
  match db.comments comment_id with
  | none => .error .NotFound
  | some _ =>
      let db1 := { db with comments := fun i => if i = comment_id then none else db.comments i }
      let db2 :=
        match rollback_by_ref_fallible dbFail db1.points strComment comment_id with
        | .ok (_, p) => { db1 with points := p }
        | .error _ => db1
      .ok ((), db2)

/-! ## NotificationHub (`src/websocket/hub.rs`)

The `DashMap<i32, Vec<(u64, WsSender)>>` is modelled as an association list
with distinct keys; a channel is identified by its connection id, and
whether a `send` on it succeeds (receiver still alive) is an oracle passed
to `send_to_user`. -/

/-- Hub state: `connections` associates a user id with its list of
`(connection_id, sender)` pairs (the sender is identified by the connection
id); `nextConnId` is the `AtomicU64` counter. -/
structure Hub where
  connections : List (Int × List (Nat × Nat))
  nextConnId : Nat
deriving Repr

/-- `NotificationHub::new` (hub.rs lines 23-28). -/
def Hub.empty : Hub := { connections := [], nextConnId := 1 }

/-- Association-list update of the entry for `uid` (models in-place mutation
through DashMap's `get_mut`). -/
def Hub.setEntry (l : List (Int × List (Nat × Nat))) (uid : Int)
    (v : List (Nat × Nat)) : List (Int × List (Nat × Nat)) :=
  l.map fun p => if p.1 = uid then (p.1, v) else p

/-- Association-list removal of the key `uid` (models `DashMap::remove`). -/
def Hub.removeKey (l : List (Int × List (Nat × Nat))) (uid : Int) :
    List (Int × List (Nat × Nat)) :=
  l.filter fun p => p.1 ≠ uid

/-- `NotificationHub::subscribe` (hub.rs lines 30-38): allocate a fresh
connection id and append the sender under the user's entry
(`entry(...).or_default().push(...)`).  Returns the connection id. -/
def Hub.subscribe (h : Hub) (uid : Int) : Nat × Hub :=
  let cid := h.nextConnId
  let conns :=
    match h.connections.find? (fun p => p.1 == uid) with
    | some p => Hub.setEntry h.connections uid (p.2 ++ [(cid, cid)])
    | none => h.connections ++ [(uid, [(cid, cid)])]
  (cid, { connections := conns, nextConnId := cid + 1 })

/-- `NotificationHub::unsubscribe` (hub.rs lines 40-48): retain every entry
whose id differs from `conn_id`; drop the user key if the list became
empty. -/
def Hub.unsubscribe (h : Hub) (uid : Int) (conn_id : Nat) : Hub :=
  match h.connections.find? (fun p => p.1 == uid) with
  | none => h
  | some p =>
      let kept := p.2.filter fun e => e.1 ≠ conn_id
      if kept = [] then { h with connections := Hub.removeKey h.connections uid }
      else { h with connections := Hub.setEntry h.connections uid kept }

/-- `NotificationHub::send_to_user` (hub.rs lines 50-59): retain exactly the
channels whose `send` succeeds (`alive` oracle — `false` models a dropped
receiver); drop the user key if the list became empty.  The message itself
does not influence the registry. -/
def Hub.sendToUser (h : Hub) (uid : Int) (alive : Nat → Bool) : Hub :=
  match h.connections.find? (fun p => p.1 == uid) with
  | none => h
  | some p =>
      let kept := p.2.filter fun e => alive e.2
      if kept = [] then { h with connections := Hub.removeKey h.connections uid }
      else { h with connections := Hub.setEntry h.connections uid kept }

/-- One hub operation, for reachability statements. -/
inductive HubOp where
  | subscribe (uid : Int)
  | unsubscribe (uid : Int) (conn_id : Nat)
  | send (uid : Int) (alive : Nat → Bool)

/-- Apply one operation to the hub state. -/
def Hub.step (h : Hub) (op : HubOp) : Hub :=
  match op with
  | .subscribe uid => (h.subscribe uid).2
  | .unsubscribe uid cid => h.unsubscribe uid cid
  | .send uid alive => h.sendToUser uid alive

/-- Run a sequence of hub operations from a starting state. -/
def Hub.run (h : Hub) (ops : List HubOp) : Hub :=
  ops.foldl Hub.step h

/-- The registry invariant: every user key maps to a non-empty connection
list. -/
def Hub.inv (h : Hub) : Prop :=
  ∀ p ∈ h.connections, p.2 ≠ []

/-! ## Concrete states used by counterexamples and witnesses -/

/-- A database with a single post (id 1, counters zero) and no votes. -/
def voteDb0 : VoteDb :=
  { posts := fun i => if i = 1 then some { upvotes := 0, downvotes := 0 } else none,
    comments := fun _ => none, votes := [], nextVoteId := 1 }

/-- `voteDb0` after user 7 has upvoted post 1 (the state the source reaches
after one `vote(7, "post", 1, 1)` call). -/
def voteDb1 : VoteDb :=
  { posts := fun i => if i = 1 then some { upvotes := 1, downvotes := 0 } else none,
    comments := fun _ => none,
    votes := [{ id := 1, user_id := 7, target_type := strPost, target_id := 1, value := 1 }],
    nextVoteId := 2 }

/-- An admin-visible database with one post (id 1), one comment (id 2), and
an empty points state with a single user. -/
def adminDb0 : AdminDb :=
  { posts := fun i => if i = 1 then some () else none,
    comments := fun i => if i = 2 then some () else none,
    points := { users := fun u => if u = 3 then some 0 else none,
                ledger := [], postAuthor := fun _ => none,
                commentAuthor := fun _ => none } }

/-! ## SHA-256 (model of the `sha2` crate, FIPS 180-4)

Machine words are `Nat` reduced mod `2^32` where overflow matters; byte
strings are `List Nat` with entries below 256. -/

/-- 32-bit wrapping addition. -/
def add32 (a b : Nat) : Nat := (a + b) % 4294967296

/-- 32-bit right rotation (the argument is assumed below `2^32`). -/
def rotr32 (n x : Nat) : Nat := ((x >>> n) ||| (x <<< (32 - n))) % 4294967296

/-- SHA-256 `Σ0`. -/
def bigSigma0 (x : Nat) : Nat := rotr32 2 x ^^^ rotr32 13 x ^^^ rotr32 22 x

/-- SHA-256 `Σ1`. -/
def bigSigma1 (x : Nat) : Nat := rotr32 6 x ^^^ rotr32 11 x ^^^ rotr32 25 x

/-- SHA-256 `σ0`. -/
def smallSigma0 (x : Nat) : Nat := rotr32 7 x ^^^ rotr32 18 x ^^^ (x >>> 3)

/-- SHA-256 `σ1`. -/
def smallSigma1 (x : Nat) : Nat := rotr32 17 x ^^^ rotr32 19 x ^^^ (x >>> 10)

/-- SHA-256 `Ch` (`¬x` is taken on 32 bits). -/
def chFun (x y z : Nat) : Nat := (x &&& y) ^^^ ((x ^^^ 4294967295) &&& z)

/-- SHA-256 `Maj`. -/
def majFun (x y z : Nat) : Nat := (x &&& y) ^^^ (x &&& z) ^^^ (y &&& z)

/-- The 64 SHA-256 round constants (FIPS 180-4 §4.2.2), in decimal. -/
def shaK : List Nat :=
  [1116352408, 1899447441, 3049323471, 3921009573, 961987163,
   1508970993, 2453635748, 2870763221, 3624381080, 310598401,
   607225278, 1426881987, 1925078388, 2162078206, 2614888103,
   3248222580, 3835390401, 4022224774, 264347078, 604807628,
   770255983, 1249150122, 1555081692, 1996064986, 2554220882,
   2821834349, 2952996808, 3210313671, 3336571891, 3584528711,
   113926993, 338241895, 666307205, 773529912, 1294757372,
   1396182291, 1695183700, 1986661051, 2177026350, 2456956037,
   2730485921, 2820302411, 3259730800, 3345764771, 3516065817,
   3600352804, 4094571909, 275423344, 430227734, 506948616,
   659060556, 883997877, 958139571, 1322822218, 1537002063,
   1747873779, 1955562222, 2024104815, 2227730452, 2361852424,
   2428436474, 2756734187, 3204031479, 3329325298]

/-- The working state of the compression function. -/
structure ShaState where
  a : Nat
  b : Nat
  c : Nat
  d : Nat
  e : Nat
  f : Nat
  g : Nat
  h : Nat
deriving Repr

/-- The SHA-256 initial hash value (FIPS 180-4 §5.3.3), in decimal. -/
def shaInit : ShaState :=
  { a := 1779033703, b := 3144134277, c := 1013904242, d := 2773480762,
    e := 1359893119, f := 2600822924, g := 528734635, h := 1541459225 }

/-- Big-endian split of a value below `2^64` into 8 bytes. -/
def be64 (x : Nat) : List Nat :=
  [x / 72057594037927936 % 256, x / 281474976710656 % 256,
   x / 1099511627776 % 256, x / 4294967296 % 256, x / 16777216 % 256,
   x / 65536 % 256, x / 256 % 256, x % 256]

/-- Big-endian split of a 32-bit word into 4 bytes. -/
def be32 (x : Nat) : List Nat :=
  [x / 16777216 % 256, x / 65536 % 256, x / 256 % 256, x % 256]

/-- SHA-256 padding: append `0x80`, zero bytes up to 56 mod 64, and the
big-endian 64-bit bit length. -/
def shaPad (msg : List Nat) : List Nat :=
  msg ++ [128] ++ List.replicate ((119 - msg.length % 64) % 64) 0
      ++ be64 (msg.length * 8)

/-- Combine consecutive byte quadruples into big-endian 32-bit words. -/
def bytesToWordsBE : List Nat → List Nat
  | b1 :: b2 :: b3 :: b4 :: rest =>
      (b1 * 16777216 + b2 * 65536 + b3 * 256 + b4) :: bytesToWordsBE rest
  | _ => []

/-- Extend the 16-word message schedule by `k` further words. -/
def extendSchedule (w : List Nat) : Nat → List Nat
  | 0 => w
  | k + 1 =>
      let n := w.length
      let next := add32 (add32 (smallSigma1 (w.getD (n - 2) 0)) (w.getD (n - 7) 0))
                        (add32 (smallSigma0 (w.getD (n - 15) 0)) (w.getD (n - 16) 0))
      extendSchedule (w ++ [next]) k

/-- One compression round with round constant `k` and schedule word `w`. -/
def shaRound (s : ShaState) (k w : Nat) : ShaState :=
  let t1 := add32 s.h (add32 (bigSigma1 s.e) (add32 (chFun s.e s.f s.g) (add32 k w)))
  let t2 := add32 (bigSigma0 s.a) (majFun s.a s.b s.c)
  { a := add32 t1 t2, b := s.a, c := s.b, d := s.c,
    e := add32 s.d t1, f := s.e, g := s.f, h := s.g }

/-- Compress one 64-byte block into the running state. -/
def shaCompress (st : ShaState) (block : List Nat) : ShaState :=
  let w := extendSchedule (bytesToWordsBE block) 48
  let s := (shaK.zip w).foldl (fun s p => shaRound s p.1 p.2) st
  { a := add32 st.a s.a, b := add32 st.b s.b, c := add32 st.c s.c,
    d := add32 st.d s.d, e := add32 st.e s.e, f := add32 st.f s.f,
    g := add32 st.g s.g, h := add32 st.h s.h }

/-- Fold the compression function over consecutive 64-byte blocks (the fuel
bounds the number of blocks; `shaPad` output length is the fuel used). -/
def shaBlocks : Nat → ShaState → List Nat → ShaState
  | 0, st, _ => st
  | _ + 1, st, [] => st
  | fuel + 1, st, bytes => shaBlocks fuel (shaCompress st (bytes.take 64)) (bytes.drop 64)

/-- SHA-256 of a byte string, as 32 digest bytes. -/
def sha256 (msg : List Nat) : List Nat :=
  let padded := shaPad msg
  let st := shaBlocks padded.length shaInit padded
  be32 st.a ++ be32 st.b ++ be32 st.c ++ be32 st.d ++ be32 st.e ++ be32 st.f
    ++ be32 st.g ++ be32 st.h

/-- HMAC-SHA256 (model of the `hmac` crate): the key is hashed when longer
than the 64-byte block, zero-padded to the block size, and combined with the
`0x36` / `0x5c` pads. -/
def hmacSha256 (key msg : List Nat) : List Nat :=
  let k0 := if 64 < key.length then sha256 key else key
  let kp := k0 ++ List.replicate (64 - k0.length) 0
  sha256 ((kp.map fun b => b ^^^ 92) ++ sha256 ((kp.map fun b => b ^^^ 54) ++ msg))

/-! ## base64url without padding (model of the `base64` crate's
`URL_SAFE_NO_PAD` engine) -/

/-- The URL-safe base64 alphabet: sextet value to ASCII byte. -/
def b64chr (d : Nat) : Nat :=
  if d < 26 then 65 + d
  else if d < 52 then 97 + (d - 26)
  else if d < 62 then 48 + (d - 52)
  else if d = 62 then 45
  else 95

/-- Inverse alphabet: ASCII byte to sextet value, `none` off-alphabet. -/
def b64val (c : Nat) : Option Nat :=
  if 65 ≤ c ∧ c ≤ 90 then some (c - 65)
  else if 97 ≤ c ∧ c ≤ 122 then some (26 + (c - 97))
  else if 48 ≤ c ∧ c ≤ 57 then some (52 + (c - 48))
  else if c = 45 then some 62
  else if c = 95 then some 63
  else none

/-- Unpadded base64url encoding of a byte string. -/
def b64encode : List Nat → List Nat
  | [] => []
  | [b1] => [b64chr (b1 / 4), b64chr (b1 % 4 * 16)]
  | [b1, b2] => [b64chr (b1 / 4), b64chr (b1 % 4 * 16 + b2 / 16), b64chr (b2 % 16 * 4)]
  | b1 :: b2 :: b3 :: rest =>
      b64chr (b1 / 4) :: b64chr (b1 % 4 * 16 + b2 / 16) ::
        b64chr (b2 % 16 * 4 + b3 / 64) :: b64chr (b3 % 64) :: b64encode rest

/-- Unpadded base64url decoding; fails on off-alphabet bytes or an invalid
length remainder. -/
def b64decode : List Nat → Option (List Nat)
  | [] => some []
  | [c1, c2] => do
      let v1 ← b64val c1
      let v2 ← b64val c2
      some [v1 * 4 + v2 / 16]
  | [c1, c2, c3] => do
      let v1 ← b64val c1
      let v2 ← b64val c2
      let v3 ← b64val c3
      some [v1 * 4 + v2 / 16, v2 % 16 * 16 + v3 / 4]
  | c1 :: c2 :: c3 :: c4 :: rest => do
      let v1 ← b64val c1
      let v2 ← b64val c2
      let v3 ← b64val c3
      let v4 ← b64val c4
      let r ← b64decode rest
      some ((v1 * 4 + v2 / 16) :: (v2 % 16 * 16 + v3 / 4) :: (v3 % 4 * 64 + v4) :: r)
  | _ => none

/-- `str::split_once` on a byte separator: split at the first occurrence. -/
def splitOnce (sep : Nat) : List Nat → Option (List Nat × List Nat)
  | [] => none
  | c :: rest =>
      if c = sep then some ([], rest)
      else (splitOnce sep rest).map fun p => (c :: p.1, p.2)

/-! ## JSON wire format of `PowChallenge` (model of `serde_json`)

`serde_json::to_vec` emits the struct's fields in declaration order with no
whitespace; strings are emitted as their UTF-8 bytes with `"`, `\` and
control bytes escaped.  The decoder below is `serde_json::from_slice`
restricted to this canonical rendering (serde accepts more lenient
whitespace and field orders, which signed tokens produced by
`sign_challenge` never exercise); the `u8` fields are range-checked as
serde does. -/

/-- The `PowChallenge` struct of `utils/pow.rs` lines 10-21.  `u8` fields are
`Fin 256`; `i32` / `i64` fields are unbounded `Int` (their byte encodings
reduce mod the word size explicitly); Rust `String`s are UTF-8 byte lists. -/
structure PowChallenge where
  v : Fin 256
  action : List Nat
  target_type : List Nat
  target_id : Int
  user_id : Int
  issued_at : Int
  expires_at : Int
  difficulty : Fin 256
  salt : List Nat
deriving DecidableEq, Repr

/-- Lowercase hex digit of a value below 16. -/
def hexDigit (n : Nat) : Nat := if n < 10 then 48 + n else 87 + n

/-- Value of a hex digit byte (lenient: junk maps to 0). -/
def hexVal (c : Nat) : Nat :=
  if 48 ≤ c ∧ c ≤ 57 then c - 48
  else if 97 ≤ c ∧ c ≤ 102 then c - 87
  else if 65 ≤ c ∧ c ≤ 70 then c - 55
  else 0

/-- JSON escape of one string byte: `\"`, `\\`, the named control escapes,
`\u00XX` for other control bytes, and everything else verbatim. -/
def escByte (b : Nat) : List Nat :=
  if b = 34 then [92, 34]
  else if b = 92 then [92, 92]
  else if b = 8 then [92, 98]
  else if b = 9 then [92, 116]
  else if b = 10 then [92, 110]
  else if b = 12 then [92, 102]
  else if b = 13 then [92, 114]
  else if b < 32 then [92, 117, 48, 48, hexDigit (b / 16), hexDigit (b % 16)]
  else [b]

/-- JSON escape of a whole string body. -/
def escStr : List Nat → List Nat
  | [] => []
  | b :: rest => escByte b ++ escStr rest

/-- Decimal digits of a natural number (ASCII). -/
def renderNat (n : Nat) : List Nat :=
  if n = 0 then [48] else (Nat.digits 10 n).reverse.map (· + 48)

/-- Decimal rendering of an integer. -/
def renderInt (i : Int) : List Nat :=
  if i < 0 then 45 :: renderNat (-i).toNat else renderNat i.toNat

/-- The named escape bytes (`\"`, `\\`, `\/`, `\b`, `\f`, `\n`, `\r`,
`\t`). -/
def unescByte (e : Nat) : Option Nat :=
  if e = 34 then some 34
  else if e = 92 then some 92
  else if e = 47 then some 47
  else if e = 98 then some 8
  else if e = 102 then some 12
  else if e = 110 then some 10
  else if e = 114 then some 13
  else if e = 116 then some 9
  else none

/-- Parse a JSON string body up to and including the closing quote,
returning the unescaped bytes and the remaining input. -/
def parseStr : List Nat → Option (List Nat × List Nat)
  | [] => none
  | c :: rest =>
      if c = 34 then some ([], rest)
      else if c = 92 then
        match rest with
        | [] => none
        | e :: rest2 =>
            if e = 117 then
              match rest2 with
              | h1 :: h2 :: h3 :: h4 :: rest3 =>
                  (parseStr rest3).map fun p =>
                    ((hexVal h1 * 4096 + hexVal h2 * 256 + hexVal h3 * 16 + hexVal h4)
                        :: p.1, p.2)
              | _ => none
            else
              match unescByte e with
              | some b => (parseStr rest2).map fun p => (b :: p.1, p.2)
              | none => none
      else (parseStr rest).map fun p => (c :: p.1, p.2)

/-- Accumulate decimal digits; stops at the first non-digit byte. -/
def parseNatAux : Nat → List Nat → Nat × List Nat
  | acc, [] => (acc, [])
  | acc, c :: rest =>
      if 48 ≤ c ∧ c ≤ 57 then parseNatAux (acc * 10 + (c - 48)) rest
      else (acc, c :: rest)

/-- Parse a decimal integer with optional leading minus. -/
def parseInt (l : List Nat) : Int × List Nat :=
  match l with
  | [] => ((0 : Int), [])
  | c :: rest =>
      if c = 45 then
        let p := parseNatAux 0 rest
        (-(p.1 : Int), p.2)
      else
        let p := parseNatAux 0 (c :: rest)
        ((p.1 : Int), p.2)

/-- Consume an expected literal byte sequence. -/
def expectLit : List Nat → List Nat → Option (List Nat)
  | [], input => some input
  | l :: ls, c :: rest => if c = l then expectLit ls rest else none
  | _ :: _, [] => none

/-- The literal `{"v":`. -/
def litV : List Nat := [123, 34, 118, 34, 58]

/-- The literal `,"action":"`. -/
def litAction : List Nat := [44, 34, 97, 99, 116, 105, 111, 110, 34, 58, 34]

/-- The literal `,"target_type":"`. -/
def litTargetType : List Nat :=
  [44, 34, 116, 97, 114, 103, 101, 116, 95, 116, 121, 112, 101, 34, 58, 34]

/-- The literal `,"target_id":`. -/
def litTargetId : List Nat :=
  [44, 34, 116, 97, 114, 103, 101, 116, 95, 105, 100, 34, 58]

/-- The literal `,"user_id":`. -/
def litUserId : List Nat := [44, 34, 117, 115, 101, 114, 95, 105, 100, 34, 58]

/-- The literal `,"issued_at":`. -/
def litIssuedAt : List Nat :=
  [44, 34, 105, 115, 115, 117, 101, 100, 95, 97, 116, 34, 58]

/-- The literal `,"expires_at":`. -/
def litExpiresAt : List Nat :=
  [44, 34, 101, 120, 112, 105, 114, 101, 115, 95, 97, 116, 34, 58]

/-- The literal `,"difficulty":`. -/
def litDifficulty : List Nat :=
  [44, 34, 100, 105, 102, 102, 105, 99, 117, 108, 116, 121, 34, 58]

/-- The literal `,"salt":"`. -/
def litSalt : List Nat := [44, 34, 115, 97, 108, 116, 34, 58, 34]

/-- A closing quote. -/
def litQuote : List Nat := [34]

/-- A closing brace. -/
def litBrace : List Nat := [125]

/-- `serde_json::to_vec(&challenge)`: the canonical JSON bytes. -/
def renderChallenge (c : PowChallenge) : List Nat :=
  litV ++ renderNat c.v.val
    ++ litAction ++ escStr c.action ++ litQuote
    ++ litTargetType ++ escStr c.target_type ++ litQuote
    ++ litTargetId ++ renderInt c.target_id
    ++ litUserId ++ renderInt c.user_id
    ++ litIssuedAt ++ renderInt c.issued_at
    ++ litExpiresAt ++ renderInt c.expires_at
    ++ litDifficulty ++ renderNat c.difficulty.val
    ++ litSalt ++ escStr c.salt ++ litQuote
    ++ litBrace

/-- `serde_json::from_slice::<PowChallenge>` on the canonical rendering:
parse the fields in order, require the input to be exhausted, and
range-check the `u8` fields. -/
def parseChallenge (bytes : List Nat) : Option PowChallenge :=
  (expectLit litV bytes).bind fun r1 =>
  (expectLit litAction (parseNatAux 0 r1).2).bind fun r2 =>
  (parseStr r2).bind fun pa =>
  (expectLit litTargetType pa.2).bind fun r3 =>
  (parseStr r3).bind fun pt =>
  (expectLit litTargetId pt.2).bind fun r4 =>
  (expectLit litUserId (parseInt r4).2).bind fun r5 =>
  (expectLit litIssuedAt (parseInt r5).2).bind fun r6 =>
  (expectLit litExpiresAt (parseInt r6).2).bind fun r7 =>
  (expectLit litDifficulty (parseInt r7).2).bind fun r8 =>
  (expectLit litSalt (parseNatAux 0 r8).2).bind fun r9 =>
  (parseStr r9).bind fun ps =>
  (expectLit litBrace ps.2).bind fun r10 =>
  if r10 = [] then
    if hv : (parseNatAux 0 r1).1 < 256 then
      if hd : (parseNatAux 0 r8).1 < 256 then
        some { v := ⟨(parseNatAux 0 r1).1, hv⟩, action := pa.1,
               target_type := pt.1, target_id := (parseInt r4).1,
               user_id := (parseInt r5).1, issued_at := (parseInt r6).1,
               expires_at := (parseInt r7).1,
               difficulty := ⟨(parseNatAux 0 r8).1, hd⟩, salt := ps.1 }
      else none
    else none
  else none

/-! ## ChallengeCodec and ProofVerifier (`src/utils/pow.rs`) -/

/-- `sign_challenge` (pow.rs lines 81-91):
`base64url(payload) ++ "." ++ base64url(hmac_sha256(secret, payload))`.
Serialization of `PowChallenge` and HMAC-SHA256 key setup never fail, so
the source's fallible signature is total here. -/
def sign_challenge (secret : List Nat) (c : PowChallenge) : List Nat :=
  let payload := renderChallenge c
  b64encode payload ++ 46 :: b64encode (hmacSha256 secret payload)

/-- `verify_and_decode_challenge` (pow.rs lines 93-119).  The source reads
the clock (`now_epoch_seconds`); the model takes `now` as a parameter. -/
def verify_and_decode_challenge (secret token : List Nat) (now : Int) :
    Except AppError PowChallenge :=
  match splitOnce 46 token with
  | none => .error .Validation
  | some (payload_b64, sig_b64) =>
      match b64decode payload_b64 with
      | none => .error .Validation
      | some payload =>
          match b64decode sig_b64 with
          | none => .error .Validation
          | some sig =>
              if hmacSha256 secret payload = sig then
                match parseChallenge payload with
                | none => .error .Internal
                | some challenge =>
                    if challenge.expires_at < now then .error .Validation
                    else .ok challenge
              else .error .Validation

/-- Little-endian byte split: `k` bytes of `x`. -/
def leBytes (k x : Nat) : List Nat := (List.range k).map fun i => x / 256 ^ i % 256

/-- `i32::to_le_bytes` on the two's-complement bit pattern of an integer. -/
def i32LeBytes (x : Int) : List Nat := leBytes 4 (x % 4294967296).toNat

/-- `i64::to_le_bytes` on the two's-complement bit pattern of an integer. -/
def i64LeBytes (x : Int) : List Nat := leBytes 8 (x % 18446744073709551616).toNat

/-- The proof-of-work preimage (pow.rs lines 127-145): the challenge fields
and the nonce joined by `|` (byte 124) separators. -/
def powMessage (c : PowChallenge) (nonce : List Nat) : List Nat :=
  c.action ++ [124] ++ c.target_type ++ [124]
    ++ i32LeBytes c.target_id ++ [124] ++ i32LeBytes c.user_id ++ [124]
    ++ i64LeBytes c.issued_at ++ [124] ++ i64LeBytes c.expires_at ++ [124]
    ++ [c.difficulty.val] ++ [124] ++ c.salt ++ [124] ++ nonce

/-- `has_leading_zero_bits` (pow.rs lines 154-172). -/
def has_leading_zero_bits (bytes : List Nat) (bits : Nat) : Bool :=
  let full := bits / 8
  let rem := bits % 8
  if bytes.length < full + (if 0 < rem then 1 else 0) then false
  else if (bytes.take full).any (fun b => b ≠ 0) then false
  else if rem = 0 then true
  else decide (bytes.getD full 0 &&& (255 <<< (8 - rem)) % 256 = 0)

/-- `validate_pow_solution` (pow.rs lines 121-152): nonce length gate, then
the leading-zero-bits check of the SHA-256 digest of `powMessage`. -/
def validate_pow_solution (c : PowChallenge) (nonce : List Nat) :
    Except AppError Unit :=
  if nonce = [] ∨ 128 < nonce.length then .error .Validation
  else if has_leading_zero_bits (sha256 (powMessage c nonce)) c.difficulty.val
    then .ok ()
  else .error .Validation

/-- Run a sequence of `apply_vote_points` calls (each an
`(actor_user_id, delta_points)` pair) against one fixed target, stopping at
the first error.  Models the repeated awards of the ledger-exactness
property. -/
def runApplies (tt : List Nat) (tid : Int) :
    PointsDb → List (Int × Int) → Except AppError PointsDb
  | db, [] => .ok db
  | db, call :: rest =>
      match apply_vote_points db call.1 tt tid call.2 with
      | .error e => .error e
      | .ok db1 => runApplies tt tid db1 rest

/-- Net karma delta a ledger-entry list carries for one user. -/
def sumFor (L : List LedgerEntry) (u : Int) : Int :=
  (L.map fun e => if e.user_id = u then e.delta else 0).sum

/-- A ledger entry as created by one `apply_vote_points(7, "post", 1, 1)`
call on `pointsDb0`. -/
def ledgerEntry0 : LedgerEntry :=
  { user_id := 3, delta := 1, reason := strVoteOnPost, ref_type := strPost,
    ref_id := 1, actor_user_id := 7 }

/-- A points database with post 1 authored by user 3 and two users (3 with
karma 0, 7 with karma 5). -/
def pointsDb0 : PointsDb :=
  { users := fun u => if u = 3 then some 0 else if u = 7 then some 5 else none,
    ledger := [],
    postAuthor := fun i => if i = 1 then some 3 else none,
    commentAuthor := fun _ => none }

/-- `pointsDb0` after user 7 awards one upvote point on post 1. -/
def pointsDb1 : PointsDb :=
  { pointsDb0 with
    ledger := [ledgerEntry0],
    users := fun u => if u = 3 then some 1 else pointsDb0.users u }

/-- A concrete signing secret (the bytes of `"sec"`). -/
def powSecret0 : List Nat := [115, 101, 99]

/-- A concrete challenge: action `"vote"`, target type `"post"`, salt
`"ab"`. -/
def powChallenge0 : PowChallenge :=
  { v := 1, action := [118, 111, 116, 101], target_type := [112, 111, 115, 116],
    target_id := 1, user_id := 7, issued_at := 0, expires_at := 100,
    difficulty := 8, salt := [97, 98] }

/-! # Theorems -/

/-! ## SHA-256 digest shape -/

/-- Each byte of a big-endian word split is below 256. -/
theorem be32_mem_lt (x : Nat) : ∀ b ∈ be32 x, b < 256 := by
  intro b hb
  simp only [be32, List.mem_cons, List.not_mem_nil, or_false] at hb
  rcases hb with rfl | rfl | rfl | rfl <;> exact Nat.mod_lt _ (by norm_num)

/-- A SHA-256 digest has exactly 32 bytes. -/
theorem sha256_length (m : List Nat) : (sha256 m).length = 32 := by
  simp [sha256, be32]

/-- Every SHA-256 digest byte is below 256. -/
theorem sha256_mem_lt (m : List Nat) : ∀ b ∈ sha256 m, b < 256 := by
  intro b hb
  simp only [sha256, List.mem_append] at hb
  rcases hb with ((((((h | h) | h) | h) | h) | h) | h) | h <;>
    exact be32_mem_lt _ _ h

/-! ## Proof-of-work difficulty check (C5) -/

/-- A prefix of a byte list is all-zero under `any` exactly when the first
`k` positions read zero. -/
theorem take_any_zero_iff (l : List Nat) : ∀ k, k ≤ l.length →
    (((l.take k).any fun b => b ≠ 0) = false ↔ ∀ i < k, l.getD i 1 = 0) := by
  induction l with
  | nil =>
      intro k hk
      have hk0 : k = 0 := by simpa using hk
      subst hk0
      simp
  | cons a l ih =>
      intro k hk
      cases k with
      | zero => simp
      | succ k =>
          simp only [List.take_succ_cons, List.any_cons, Bool.or_eq_false_iff]
          constructor
          · rintro ⟨ha, hb⟩ i hi
            cases i with
            | zero => simpa using ha
            | succ i =>
                have hrec := (ih k (by simpa using hk)).mp hb
                simpa using hrec i (by omega)
          · intro h
            refine ⟨by simpa using h 0 (by omega), ?_⟩
            exact (ih k (by simpa using hk)).mpr fun i hi => by
              simpa using h (i + 1) (by omega)

/-- `has_leading_zero_bits` on a 32-byte digest agrees with the claim's
byte/mask description for every difficulty below 256. -/
theorem has_leading_zero_bits_iff (bytes : List Nat) (bits : Nat)
    (hlen : bytes.length = 32) (hbits : bits < 256) :
    has_leading_zero_bits bytes bits = true ↔
      ((∀ i < bits / 8, bytes.getD i 1 = 0) ∧
       (bits % 8 ≠ 0 →
         bytes.getD (bits / 8) 0 &&& (255 <<< (8 - bits % 8)) % 256 = 0)) := by
  have hfull : bits / 8 ≤ 31 := by omega
  have htake := take_any_zero_iff bytes (bits / 8) (by omega)
  rw [has_leading_zero_bits]
  rw [if_neg (by split_ifs <;> omega)]
  cases hany : (bytes.take (bits / 8)).any fun b => b ≠ 0 with
  | false =>
      rw [if_neg (by simp [hany])]
      by_cases hrem : bits % 8 = 0
      · rw [if_pos hrem]
        exact iff_of_true rfl ⟨htake.mp hany, fun hne => absurd hrem hne⟩
      · rw [if_neg hrem]
        constructor
        · intro hM
          exact ⟨htake.mp hany, fun _ => of_decide_eq_true hM⟩
        · rintro ⟨-, himp⟩
          exact decide_eq_true (himp hrem)
  | true =>
      rw [if_pos (by simp [hany])]
      refine iff_of_false (by simp) ?_
      rintro ⟨hall, -⟩
      have h2 := htake.mpr hall
      rw [hany] at h2
      exact Bool.noConfusion h2

/-- C5: `validate_pow_solution` succeeds exactly when the nonce is non-empty
and at most 128 bytes and the SHA-256 digest of the `|`-joined challenge
fields has at least `difficulty` leading zero bits — the first
`difficulty / 8` digest bytes are zero and, when `difficulty % 8 ≠ 0`, the
next byte masked with `0xFF <<< (8 - difficulty % 8)` is zero; with a valid
nonce, `difficulty = 0` always passes. -/
theorem validate_pow_solution_iff (c : PowChallenge) (nonce : List Nat) :
    (validate_pow_solution c nonce = .ok () ↔
      (nonce ≠ [] ∧ nonce.length ≤ 128 ∧
       ((∀ i < c.difficulty.val / 8,
            (sha256 (powMessage c nonce)).getD i 1 = 0) ∧
        (c.difficulty.val % 8 ≠ 0 →
          (sha256 (powMessage c nonce)).getD (c.difficulty.val / 8) 0 &&&
            (255 <<< (8 - c.difficulty.val % 8)) % 256 = 0)))) ∧
    (c.difficulty.val = 0 →
      (validate_pow_solution c nonce = .ok () ↔
        nonce ≠ [] ∧ nonce.length ≤ 128)) := by
  have hmain : validate_pow_solution c nonce = .ok () ↔
      (nonce ≠ [] ∧ nonce.length ≤ 128 ∧
       ((∀ i < c.difficulty.val / 8,
            (sha256 (powMessage c nonce)).getD i 1 = 0) ∧
        (c.difficulty.val % 8 ≠ 0 →
          (sha256 (powMessage c nonce)).getD (c.difficulty.val / 8) 0 &&&
            (255 <<< (8 - c.difficulty.val % 8)) % 256 = 0))) := by
    rw [validate_pow_solution]
    by_cases hn : nonce = [] ∨ 128 < nonce.length
    · rw [if_pos hn]
      refine iff_of_false (by simp) ?_
      rintro ⟨hne, hle, -⟩
      rcases hn with h | h
      · exact hne h
      · omega
    · rw [if_neg hn]
      push_neg at hn
      have hiff := has_leading_zero_bits_iff (sha256 (powMessage c nonce))
        c.difficulty.val (sha256_length _) c.difficulty.isLt
      cases hb : has_leading_zero_bits (sha256 (powMessage c nonce))
          c.difficulty.val with
      | true =>
          rw [if_pos (by simp [hb])]
          exact iff_of_true rfl ⟨hn.1, hn.2, hiff.mp hb⟩
      | false =>
          rw [if_neg (by simp [hb])]
          refine iff_of_false (by simp) ?_
          rintro ⟨-, -, hcheck⟩
          have h2 := hiff.mpr hcheck
          rw [hb] at h2
          exact Bool.noConfusion h2
  refine ⟨hmain, fun h0 => ?_⟩
  rw [hmain]
  constructor
  · rintro ⟨h1, h2, -⟩
    exact ⟨h1, h2⟩
  · rintro ⟨h1, h2⟩
    refine ⟨h1, h2, fun i hi => ?_, fun hne => ?_⟩
    · rw [h0] at hi
      exact absurd hi (by omega)
    · rw [h0] at hne
      exact absurd rfl hne

/-! ## Token round-trip (C6): base64 and splitting lemmas -/

/-- Consuming a literal prefix succeeds and returns the remainder. -/
theorem expectLit_append : ∀ l r : List Nat, expectLit l (l ++ r) = some r
  | [], r => rfl
  | x :: xs, r => by
      simp [expectLit, expectLit_append xs r]

/-- The base64 alphabet maps are mutually inverse on sextets. -/
theorem b64val_chr : ∀ d, d < 64 → b64val (b64chr d) = some d := by decide

/-- No base64url alphabet byte is the `.` separator (byte 46). -/
theorem b64chr_ne_dot (d : Nat) : b64chr d ≠ 46 := by
  rw [b64chr]; split_ifs <;> omega

/-- No byte of a base64url encoding is the `.` separator. -/
theorem b64encode_ne_dot : ∀ bs : List Nat, ∀ x ∈ b64encode bs, x ≠ 46
  | [] => by simp [b64encode]
  | [b1] => by
      intro x hx
      simp only [b64encode, List.mem_cons, List.not_mem_nil, or_false] at hx
      rcases hx with rfl | rfl <;> exact b64chr_ne_dot _
  | [b1, b2] => by
      intro x hx
      simp only [b64encode, List.mem_cons, List.not_mem_nil, or_false] at hx
      rcases hx with rfl | rfl | rfl <;> exact b64chr_ne_dot _
  | b1 :: b2 :: b3 :: rest => by
      intro x hx
      simp only [b64encode, List.mem_cons] at hx
      rcases hx with rfl | rfl | rfl | rfl | hx
      · exact b64chr_ne_dot _
      · exact b64chr_ne_dot _
      · exact b64chr_ne_dot _
      · exact b64chr_ne_dot _
      · exact b64encode_ne_dot rest x hx

/-- Decoding inverts encoding on byte strings. -/
theorem b64_roundtrip : ∀ bs : List Nat, (∀ b ∈ bs, b < 256) →
    b64decode (b64encode bs) = some bs
  | [], _ => rfl
  | [b1], h => by
      have hb1 : b1 < 256 := h b1 (by simp)
      have h1 : b64val (b64chr (b1 / 4)) = some (b1 / 4) := b64val_chr _ (by omega)
      have h2 : b64val (b64chr (b1 % 4 * 16)) = some (b1 % 4 * 16) :=
        b64val_chr _ (by omega)
      simp only [b64encode, b64decode, h1, h2, Option.bind_eq_bind,
        Option.some_bind, Option.some.injEq, List.cons.injEq, and_true]
      omega
  | [b1, b2], h => by
      have hb1 : b1 < 256 := h b1 (by simp)
      have hb2 : b2 < 256 := h b2 (by simp)
      have h1 : b64val (b64chr (b1 / 4)) = some (b1 / 4) := b64val_chr _ (by omega)
      have h2 : b64val (b64chr (b1 % 4 * 16 + b2 / 16)) =
          some (b1 % 4 * 16 + b2 / 16) := b64val_chr _ (by omega)
      have h3 : b64val (b64chr (b2 % 16 * 4)) = some (b2 % 16 * 4) :=
        b64val_chr _ (by omega)
      simp only [b64encode, b64decode, h1, h2, h3, Option.bind_eq_bind,
        Option.some_bind, Option.some.injEq, List.cons.injEq, and_true]
      constructor <;> omega
  | b1 :: b2 :: b3 :: rest, h => by
      have hb1 : b1 < 256 := h b1 (by simp)
      have hb2 : b2 < 256 := h b2 (by simp)
      have hb3 : b3 < 256 := h b3 (by simp)
      have h1 : b64val (b64chr (b1 / 4)) = some (b1 / 4) := b64val_chr _ (by omega)
      have h2 : b64val (b64chr (b1 % 4 * 16 + b2 / 16)) =
          some (b1 % 4 * 16 + b2 / 16) := b64val_chr _ (by omega)
      have h3 : b64val (b64chr (b2 % 16 * 4 + b3 / 64)) =
          some (b2 % 16 * 4 + b3 / 64) := b64val_chr _ (by omega)
      have h4 : b64val (b64chr (b3 % 64)) = some (b3 % 64) :=
        b64val_chr _ (by omega)
      have hrec := b64_roundtrip rest fun b hb => h b (by simp [hb])
      simp only [b64encode, b64decode, h1, h2, h3, h4, hrec,
        Option.bind_eq_bind, Option.some_bind, Option.some.injEq,
        List.cons.injEq, and_true]
      refine ⟨by omega, by omega, by omega⟩

/-- Big-endian digit folding after a reversal, in terms of `Nat.ofDigits`. -/
theorem foldl_digit_reverse (B : List Nat) : ∀ a : Nat,
    B.reverse.foldl (fun x d => x * 10 + d) a =
      a * 10 ^ B.length + Nat.ofDigits 10 B := by
  induction B with
  | nil => intro a; simp [Nat.ofDigits]
  | cons d L ih =>
      intro a
      rw [List.reverse_cons, List.foldl_append, ih]
      simp only [List.foldl_cons, List.foldl_nil, Nat.ofDigits_cons,
        List.length_cons]
      ring

/-- `parseNatAux` consumes exactly a mapped big-endian digit block when the
remainder does not begin with a digit byte. -/
theorem parseNatAux_digits (B : List Nat) : ∀ (a : Nat) (r : List Nat),
    (∀ d ∈ B, d < 10) → ¬(48 ≤ r.headD 0 ∧ r.headD 0 ≤ 57) →
    parseNatAux a (B.map (· + 48) ++ r) =
      (B.foldl (fun x d => x * 10 + d) a, r) := by
  induction B with
  | nil =>
      intro a r _ hr
      cases r with
      | nil => rfl
      | cons c r' =>
          simp only [List.map_nil, List.nil_append, parseNatAux, List.foldl_nil]
          rw [if_neg (by simpa using hr)]
  | cons d B ih =>
      intro a r hB hr
      have hd : d < 10 := hB d (by simp)
      simp only [List.map_cons, List.cons_append, parseNatAux, List.foldl_cons]
      rw [if_pos (by omega)]
      have h48 : d + 48 - 48 = d := by omega
      rw [h48]
      exact ih (a * 10 + d) r (fun x hx => hB x (by simp [hx])) hr

/-- `parseNatAux` inverts `renderNat` when the remainder does not begin with
a digit byte. -/
theorem parseNatAux_renderNat (n : Nat) (r : List Nat)
    (hr : ¬(48 ≤ r.headD 0 ∧ r.headD 0 ≤ 57)) :
    parseNatAux 0 (renderNat n ++ r) = (n, r) := by
  rw [renderNat]
  by_cases h0 : n = 0
  · subst h0
    rw [if_pos rfl]
    simp only [List.cons_append, List.nil_append, parseNatAux]
    rw [if_pos (by omega)]
    have h00 : 0 * 10 + (48 - 48) = 0 := by norm_num
    rw [h00]
    cases r with
    | nil => rfl
    | cons c r' =>
        simp only [parseNatAux]
        rw [if_neg (by simpa using hr)]
  · rw [if_neg h0]
    have hB : ∀ d ∈ (Nat.digits 10 n).reverse, d < 10 := fun d hd =>
      Nat.digits_lt_base (by norm_num) (List.mem_reverse.mp hd)
    rw [parseNatAux_digits _ 0 r hB hr]
    rw [foldl_digit_reverse]
    simp [Nat.ofDigits_digits]

/-- `renderNat` always begins with a decimal digit byte. -/
theorem renderNat_head_digit (n : Nat) :
    ∃ c cs, renderNat n = c :: cs ∧ 48 ≤ c ∧ c ≤ 57 := by
  rw [renderNat]
  by_cases h0 : n = 0
  · exact ⟨48, [], by rw [if_pos h0], by omega, by omega⟩
  · rw [if_neg h0]
    cases hL : (Nat.digits 10 n).reverse with
    | nil =>
        exact absurd (by simpa using congrArg List.length hL)
          (by simpa [List.length_eq_zero] using Nat.digits_ne_nil_iff_ne_zero.mpr h0)
    | cons d ds =>
        have hd : d < 10 := Nat.digits_lt_base (by norm_num)
          (List.mem_reverse.mp (by rw [hL]; simp))
        exact ⟨d + 48, ds.map (· + 48), by simp, by omega, by omega⟩

/-- `parseInt` inverts `renderInt` when the remainder does not begin with a
digit byte. -/
theorem parseInt_renderInt (i : Int) (r : List Nat)
    (hr : ¬(48 ≤ r.headD 0 ∧ r.headD 0 ≤ 57)) :
    parseInt (renderInt i ++ r) = (i, r) := by
  rw [renderInt]
  by_cases hneg : i < 0
  · rw [if_pos hneg]
    show (-(((parseNatAux 0 (renderNat (-i).toNat ++ r)).1 : Nat) : Int),
          (parseNatAux 0 (renderNat (-i).toNat ++ r)).2) = (i, r)
    rw [parseNatAux_renderNat _ r hr]
    simp only [Prod.mk.injEq]
    exact ⟨by omega, by trivial⟩
  · rw [if_neg hneg]
    obtain ⟨c, cs, hcs, hc1, hc2⟩ := renderNat_head_digit i.toNat
    rw [hcs]
    simp only [List.cons_append, parseInt]
    rw [if_neg (by omega), ← List.cons_append, ← hcs,
      parseNatAux_renderNat _ r hr]
    simp only [Prod.mk.injEq]
    exact ⟨by omega, by trivial⟩

/-- Hex digits round-trip below 16. -/
theorem hexVal_hexDigit : ∀ x, x < 16 → hexVal (hexDigit x) = x := by decide

/-- `parseStr` inverts `escStr` up to the closing quote. -/
theorem parseStr_escStr : ∀ s r : List Nat,
    parseStr (escStr s ++ 34 :: r) = some (s, r)
  | [], r => by
      rw [escStr, List.nil_append, parseStr.eq_def]
      simp
  | b :: s, r => by
      have ih := parseStr_escStr s r
      rw [escStr, escByte, List.append_assoc]
      by_cases h34 : b = 34
      · subst h34
        rw [if_pos rfl]
        rw [List.cons_append, List.cons_append, List.nil_append,
          parseStr.eq_def]
        simp [unescByte, ih]
      · rw [if_neg h34]
        by_cases h92 : b = 92
        · subst h92
          rw [if_pos rfl]
          rw [List.cons_append, List.cons_append, List.nil_append,
            parseStr.eq_def]
          simp [unescByte, ih]
        · rw [if_neg h92]
          by_cases h8 : b = 8
          · subst h8
            rw [if_pos rfl]
            rw [List.cons_append, List.cons_append, List.nil_append,
              parseStr.eq_def]
            simp [unescByte, ih]
          · rw [if_neg h8]
            by_cases h9 : b = 9
            · subst h9
              rw [if_pos rfl]
              rw [List.cons_append, List.cons_append, List.nil_append,
                parseStr.eq_def]
              simp [unescByte, ih]
            · rw [if_neg h9]
              by_cases h10 : b = 10
              · subst h10
                rw [if_pos rfl]
                rw [List.cons_append, List.cons_append, List.nil_append,
                  parseStr.eq_def]
                simp [unescByte, ih]
              · rw [if_neg h10]
                by_cases h12 : b = 12
                · subst h12
                  rw [if_pos rfl]
                  rw [List.cons_append, List.cons_append, List.nil_append,
                    parseStr.eq_def]
                  simp [unescByte, ih]
                · rw [if_neg h12]
                  by_cases h13 : b = 13
                  · subst h13
                    rw [if_pos rfl]
                    rw [List.cons_append, List.cons_append, List.nil_append,
                      parseStr.eq_def]
                    simp [unescByte, ih]
                  · rw [if_neg h13]
                    by_cases hctl : b < 32
                    · rw [if_pos hctl]
                      have e1 : hexVal (hexDigit (b / 16)) = b / 16 :=
                        hexVal_hexDigit _ (by omega)
                      have e2 : hexVal (hexDigit (b % 16)) = b % 16 :=
                        hexVal_hexDigit _ (by omega)
                      have h48 : hexVal 48 = 0 := rfl
                      simp only [List.cons_append, List.nil_append]
                      rw [parseStr.eq_def]
                      simp only [List.cons_append]
                      norm_num [ih, e1, e2, h48]
                      omega
                    · rw [if_neg hctl]
                      simp only [List.cons_append, List.nil_append]
                      rw [parseStr.eq_def]
                      simp only []
                      rw [if_neg h34, if_neg h92]
                      simp [ih]

set_option maxRecDepth 4096 in
/-- Every escape-expansion byte of a byte below 256 is below 256. -/
theorem escByte_lt : ∀ b < 256, ∀ x ∈ escByte b, x < 256 := by decide

/-- Escaped strings stay byte-valued. -/
theorem escStr_lt (s : List Nat) (hs : ∀ b ∈ s, b < 256) :
    ∀ x ∈ escStr s, x < 256 := by
  induction s with
  | nil => simp [escStr]
  | cons b s ih =>
      intro x hx
      rw [escStr] at hx
      rcases List.mem_append.mp hx with h | h
      · exact escByte_lt b (hs b (by simp)) x h
      · exact ih (fun y hy => hs y (by simp [hy])) x h

/-- Decimal renderings are byte-valued. -/
theorem renderNat_lt (n : Nat) : ∀ x ∈ renderNat n, x < 256 := by
  intro x hx
  rw [renderNat] at hx
  split_ifs at hx
  · simp at hx; omega
  · simp only [List.mem_map] at hx
    obtain ⟨d, hd, rfl⟩ := hx
    have := Nat.digits_lt_base (by norm_num) (List.mem_reverse.mp hd)
    omega

/-- Integer renderings are byte-valued. -/
theorem renderInt_lt (i : Int) : ∀ x ∈ renderInt i, x < 256 := by
  intro x hx
  rw [renderInt] at hx
  split_ifs at hx
  · rcases List.mem_cons.mp hx with rfl | h
    · omega
    · exact renderNat_lt _ x h
  · exact renderNat_lt _ x hx

/-- The canonical JSON rendering of a challenge with byte-valued strings is
itself byte-valued. -/
theorem renderChallenge_lt (c : PowChallenge)
    (ha : ∀ b ∈ c.action, b < 256) (ht : ∀ b ∈ c.target_type, b < 256)
    (hs : ∀ b ∈ c.salt, b < 256) : ∀ x ∈ renderChallenge c, x < 256 := by
  intro x hx
  rw [renderChallenge] at hx
  simp only [List.append_assoc, List.mem_append] at hx
  rcases hx with h|h|h|h|h|h|h|h|h|h|h|h|h|h|h|h|h|h|h|h|h|h
  · exact (by decide : ∀ y ∈ litV, y < 256) x h
  · exact renderNat_lt _ x h
  · exact (by decide : ∀ y ∈ litAction, y < 256) x h
  · exact escStr_lt _ ha x h
  · exact (by decide : ∀ y ∈ litQuote, y < 256) x h
  · exact (by decide : ∀ y ∈ litTargetType, y < 256) x h
  · exact escStr_lt _ ht x h
  · exact (by decide : ∀ y ∈ litQuote, y < 256) x h
  · exact (by decide : ∀ y ∈ litTargetId, y < 256) x h
  · exact renderInt_lt _ x h
  · exact (by decide : ∀ y ∈ litUserId, y < 256) x h
  · exact renderInt_lt _ x h
  · exact (by decide : ∀ y ∈ litIssuedAt, y < 256) x h
  · exact renderInt_lt _ x h
  · exact (by decide : ∀ y ∈ litExpiresAt, y < 256) x h
  · exact renderInt_lt _ x h
  · exact (by decide : ∀ y ∈ litDifficulty, y < 256) x h
  · exact renderNat_lt _ x h
  · exact (by decide : ∀ y ∈ litSalt, y < 256) x h
  · exact escStr_lt _ hs x h
  · exact (by decide : ∀ y ∈ litQuote, y < 256) x h
  · exact (by decide : ∀ y ∈ litBrace, y < 256) x h

/-- Splitting at the separator after a separator-free prefix. -/
theorem splitOnce_append (sep : Nat) (l1 l2 : List Nat) (h : sep ∉ l1) :
    splitOnce sep (l1 ++ sep :: l2) = some (l1, l2) := by
  induction l1 with
  | nil => simp [splitOnce]
  | cons c cs ih =>
      have hc : ¬ c = sep := by
        intro e
        exact h (by simp [e])
      have hrec := ih (by intro hm; exact h (by simp [hm]))
      simp [splitOnce, hc, hrec]

set_option maxHeartbeats 2000000 in
/-- `serde_json::from_slice` inverts `serde_json::to_vec` on the canonical
challenge rendering. -/
theorem parseChallenge_render (c : PowChallenge) :
    parseChallenge (renderChallenge c) = some c := by
  have hr : renderChallenge c =
      litV ++ (renderNat c.v.val ++ (litAction ++ (escStr c.action ++
        (34 :: (litTargetType ++ (escStr c.target_type ++
        (34 :: (litTargetId ++ (renderInt c.target_id ++
        (litUserId ++ (renderInt c.user_id ++
        (litIssuedAt ++ (renderInt c.issued_at ++
        (litExpiresAt ++ (renderInt c.expires_at ++
        (litDifficulty ++ (renderNat c.difficulty.val ++
        (litSalt ++ (escStr c.salt ++
        (34 :: litBrace)))))))))))))))))))) := by
    rw [renderChallenge]
    simp [litQuote, List.append_assoc]
  unfold parseChallenge
  rw [hr, expectLit_append]
  rw [Option.some_bind]
  rw [parseNatAux_renderNat _ _ (by simp [litAction])]
  simp only []
  rw [expectLit_append]
  rw [Option.some_bind]
  rw [parseStr_escStr]
  rw [Option.some_bind]
  rw [expectLit_append]
  rw [Option.some_bind]
  rw [parseStr_escStr]
  rw [Option.some_bind]
  rw [expectLit_append]
  rw [Option.some_bind]
  rw [parseInt_renderInt _ _ (by simp [litUserId])]
  simp only []
  rw [expectLit_append]
  rw [Option.some_bind]
  rw [parseInt_renderInt _ _ (by simp [litIssuedAt])]
  simp only []
  rw [expectLit_append]
  rw [Option.some_bind]
  rw [parseInt_renderInt _ _ (by simp [litExpiresAt])]
  simp only []
  rw [expectLit_append]
  rw [Option.some_bind]
  rw [parseInt_renderInt _ _ (by simp [litDifficulty])]
  simp only []
  rw [expectLit_append]
  rw [Option.some_bind]
  rw [parseNatAux_renderNat _ _ (by simp [litSalt])]
  simp only []
  rw [expectLit_append]
  rw [Option.some_bind]
  rw [parseStr_escStr]
  rw [Option.some_bind]
  rw [show expectLit litBrace litBrace = some [] from rfl]
  rw [Option.some_bind]
  rw [if_pos rfl, dif_pos c.v.isLt, dif_pos c.difficulty.isLt]

/-- C6: decoding a freshly issued token with the same secret recovers the
challenge field-for-field, provided the challenge has not yet expired at
decode time (and its string fields are byte strings, as Rust guarantees). -/
theorem pow_token_roundtrip (secret : List Nat) (c : PowChallenge) (now : Int)
    (ha : ∀ b ∈ c.action, b < 256) (ht : ∀ b ∈ c.target_type, b < 256)
    (hs : ∀ b ∈ c.salt, b < 256) (hexp : now ≤ c.expires_at) :
    verify_and_decode_challenge secret (sign_challenge secret c) now =
      .ok c := by
  have hpayload : ∀ b ∈ renderChallenge c, b < 256 :=
    renderChallenge_lt c ha ht hs
  have hsig : ∀ b ∈ hmacSha256 secret (renderChallenge c), b < 256 :=
    sha256_mem_lt _
  unfold sign_challenge verify_and_decode_challenge
  simp only []
  rw [splitOnce_append 46 _ _
    (by intro hmem; exact absurd rfl (b64encode_ne_dot _ 46 hmem))]
  simp only []
  rw [b64_roundtrip _ hpayload, b64_roundtrip _ hsig]
  simp only []
  rw [if_pos trivial, parseChallenge_render]
  simp only []
  rw [if_neg (by omega)]

/-- C6 witness: the round trip at a concrete secret, challenge, and clock. -/
theorem pow_token_roundtrip_witness :
    (∀ b ∈ powChallenge0.action, b < 256) ∧
    (∀ b ∈ powChallenge0.target_type, b < 256) ∧
    (∀ b ∈ powChallenge0.salt, b < 256) ∧
    ((0 : Int) ≤ powChallenge0.expires_at) ∧
    verify_and_decode_challenge powSecret0
      (sign_challenge powSecret0 powChallenge0) 0 = .ok powChallenge0 :=
  ⟨by decide, by decide, by decide, by decide,
   pow_token_roundtrip powSecret0 powChallenge0 0
     (by decide) (by decide) (by decide) (by decide)⟩

/-! ## Counter maintenance (C1) -/

/-- C1 (refuted — code bug): the claimed delta formula says that after user 7
upvotes post 1 on a fresh target and then repeats the same vote (toggle-off),
the counters return to `(upvotes = 0, downvotes = 0)`.  Evaluating the
embedded `VoteService::vote` twice shows the second call returns value `0`
and deletes the row, but leaves the counters at `(1, 1)`: `update_counters`
receives `delta = -1` for the removal and increments `downvotes` instead of
decrementing `upvotes`. -/
theorem vote_toggle_off_counter_bug :
    ((VoteService_vote voteDb0 7 strPost 1 1).toOption.bind fun r =>
      (VoteService_vote r.2 7 strPost 1 1).toOption.map fun r2 =>
        (r2.1.value, r2.2.posts 1, r2.2.votes)) =
      some (0, some { upvotes := 1, downvotes := 1 }, []) := by
  rfl

/-! ## Vote value validation (C2) -/

/-- C2 (counterexample): calling the vote operation with `new_value = 0` on
an existing target does not succeed — it is rejected by the
`value != 1 && value != -1` validation. -/
theorem vote_zero_rejected_counterexample :
    VoteService_vote voteDb0 7 strPost 1 0 = .error .Validation := by
  rfl

/-- C2 (amended): for every database state, user, and target,
`VoteService::vote` with `new_value = 0` fails with a `Validation` error
before touching any vote state; rows are removed via toggle-off (re-sending
the current value) instead. -/
theorem vote_zero_always_validation_error (db : VoteDb) (uid : Int)
    (ttype : List Nat) (tid : Int) :
    VoteService_vote db uid ttype tid 0 = .error .Validation := by
  simp [VoteService_vote]

/-! ## Re-applying the same vote (C3) -/

/-- C3 (counterexample): with user 7's vote on post 1 already at value `1`,
calling the vote operation again with value `1` is not a no-op: it returns
value `0`, deletes the row, and changes the counters to `(1, 1)`. -/
theorem vote_same_value_not_noop_counterexample :
    (VoteService_vote voteDb1 7 strPost 1 1).toOption.map
        (fun r => (r.1.value, r.2.votes, r.2.posts 1)) =
      some (0, [], some { upvotes := 1, downvotes := 1 }) := by
  rfl

/-- C3 (amended): re-applying the user's current vote value `v ∈ {-1,1}` to
an existing target toggles the vote off: the call succeeds with a synthetic
model of value `0`, the `(user, target)` row is deleted, and the counters
change by the `update_counters (-v)` rule (rather than being unchanged). -/
theorem vote_same_value_toggles_off (db : VoteDb) (uid : Int)
    (ttype : List Nat) (tid v : Int) (row : VoteRow)
    (htgt : (ttype = strPost ∧ (db.posts tid).isSome = true) ∨
            (ttype = strComment ∧ (db.comments tid).isSome = true))
    (hv : v = 1 ∨ v = -1)
    (hrow : findVote db uid ttype tid = some row)
    (hval : row.value = v) :
    VoteService_vote db uid ttype tid v =
      .ok ({ id := 0, user_id := uid, target_type := ttype,
             target_id := tid, value := 0 },
           update_counters { db with votes := db.votes.filter (·.id ≠ row.id) }
             ttype tid (-v)) := by
  have hcore : voteCore db uid ttype tid v =
      .ok ({ id := 0, user_id := uid, target_type := ttype,
             target_id := tid, value := 0 },
           update_counters { db with votes := db.votes.filter (·.id ≠ row.id) }
             ttype tid (-v)) := by
    rw [voteCore, hrow]
    simp [hval]
  rcases htgt with ⟨rfl, hpost⟩ | ⟨rfl, hcomment⟩
  · obtain ⟨c, hc⟩ := Option.isSome_iff_exists.mp hpost
    rw [VoteService_vote]
    rcases hv with rfl | rfl <;> simp [hc, hcore]
  · obtain ⟨c, hc⟩ := Option.isSome_iff_exists.mp hcomment
    rw [VoteService_vote]
    have hne : strComment ≠ strPost := by decide
    rcases hv with rfl | rfl <;> simp [hc, hcore, hne]

/-- C3 witness: the amended toggle-off theorem applied to the concrete state
`voteDb1`. -/
theorem vote_same_value_toggles_off_witness :
    findVote voteDb1 7 strPost 1 =
      some { id := 1, user_id := 7, target_type := strPost, target_id := 1, value := 1 } ∧
    VoteService_vote voteDb1 7 strPost 1 1 =
      .ok ({ id := 0, user_id := 7, target_type := strPost,
             target_id := 1, value := 0 },
           update_counters { voteDb1 with
              votes := voteDb1.votes.filter
                (·.id ≠ ({ id := 1, user_id := 7, target_type := strPost,
                           target_id := 1, value := 1 } : VoteRow).id) }
             strPost 1 (-1)) :=
  ⟨by rfl,
   vote_same_value_toggles_off voteDb1 7 strPost 1 1 _
     (Or.inl ⟨rfl, by rfl⟩) (Or.inl rfl) (by rfl) (by rfl)⟩

/-! ## Moderation rollback error handling (C8) -/

/-- C8 (counterexample): with post 1 present and the karma rollback failing
(`dbFail = true` makes `rollback_by_ref` return an `Internal` error),
`admin_delete_post` still reports success — the error is discarded by
`let _ = ...`, contradicting the claim that it is propagated. -/
theorem admin_delete_swallow_counterexample :
    rollback_by_ref_fallible true adminDb0.points strPost 1 = .error .Internal ∧
    ((admin_delete_post true adminDb0 1).toOption.map fun r => r.2.posts 1) =
      some none := by
  exact ⟨rfl, rfl⟩

/-- C8 (amended): `admin_delete_post` and `admin_delete_comment` ignore the
outcome of `rollback_by_ref` entirely: for every database state and every
rollback outcome (including failure), deleting an existing post or comment
returns `Ok`. -/
theorem admin_delete_ignores_rollback_failure (dbFail : Bool) (db : AdminDb)
    (pid cid : Int)
    (hp : (db.posts pid).isSome = true)
    (hc : (db.comments cid).isSome = true) :
    (admin_delete_post dbFail db pid).toOption.isSome = true ∧
    (admin_delete_comment dbFail db cid).toOption.isSome = true := by
  obtain ⟨u, hu⟩ := Option.isSome_iff_exists.mp hp
  obtain ⟨w, hw⟩ := Option.isSome_iff_exists.mp hc
  constructor
  · rw [admin_delete_post, hu]; exact rfl
  · rw [admin_delete_comment, hw]; exact rfl

/-- C8 witness: the amended theorem at the concrete state `adminDb0` with a
failing rollback. -/
theorem admin_delete_ignores_rollback_failure_witness :
    (adminDb0.posts 1).isSome = true ∧ (adminDb0.comments 2).isSome = true ∧
    ((admin_delete_post true adminDb0 1).toOption.isSome = true ∧
     (admin_delete_comment true adminDb0 2).toOption.isSome = true) :=
  ⟨by rfl, by rfl,
   admin_delete_ignores_rollback_failure true adminDb0 1 2 (by rfl) (by rfl)⟩

/-! ## NotificationHub registry invariant (C9) -/

/-- Updating one key's value to a non-empty list preserves the non-empty
invariant. -/
theorem Hub.setEntry_inv (l : List (Int × List (Nat × Nat))) (uid : Int)
    (v : List (Nat × Nat)) (hv : v ≠ []) (hl : ∀ p ∈ l, p.2 ≠ []) :
    ∀ p ∈ Hub.setEntry l uid v, p.2 ≠ [] := by
  intro p hp
  obtain ⟨q, hq, hpq⟩ := List.mem_map.mp hp
  by_cases h : q.1 = uid
  · subst hpq; simp only [h, if_pos rfl]; exact hv
  · subst hpq; simp only [if_neg h]; exact hl q hq

/-- Removing a key preserves the non-empty invariant. -/
theorem Hub.removeKey_inv (l : List (Int × List (Nat × Nat))) (uid : Int)
    (hl : ∀ p ∈ l, p.2 ≠ []) :
    ∀ p ∈ Hub.removeKey l uid, p.2 ≠ [] := by
  intro p hp
  exact hl p (List.mem_of_mem_filter hp)

/-- Each hub operation preserves the non-empty invariant. -/
theorem Hub.step_inv (h : Hub) (op : HubOp) (hh : h.inv) : (h.step op).inv := by
  cases op with
  | subscribe uid =>
      simp only [Hub.step, Hub.subscribe]
      cases hfind : h.connections.find? (fun p => p.1 == uid) with
      | some p =>
          simp only [hfind]
          exact Hub.setEntry_inv _ _ _ (by simp) hh
      | none =>
          simp only [hfind]
          intro q hq
          rcases List.mem_append.mp hq with hq | hq
          · exact hh q hq
          · simp only [List.mem_singleton] at hq
            subst hq; simp
  | unsubscribe uid cid =>
      simp only [Hub.step, Hub.unsubscribe]
      cases hfind : h.connections.find? (fun p => p.1 == uid) with
      | none => exact hh
      | some p =>
          simp only [hfind]
          by_cases hk : p.2.filter (fun e => e.1 ≠ cid) = []
          · simp only [hk, if_pos rfl]
            exact Hub.removeKey_inv _ _ hh
          · simp only [if_neg hk]
            exact Hub.setEntry_inv _ _ _ hk hh
  | send uid alive =>
      simp only [Hub.step, Hub.sendToUser]
      cases hfind : h.connections.find? (fun p => p.1 == uid) with
      | none => exact hh
      | some p =>
          simp only [hfind]
          by_cases hk : p.2.filter (fun e => alive e.2) = []
          · simp only [hk, if_pos rfl]
            exact Hub.removeKey_inv _ _ hh
          · simp only [if_neg hk]
            exact Hub.setEntry_inv _ _ _ hk hh

/-- Running any operation sequence from an invariant-satisfying state keeps
the invariant. -/
theorem Hub.run_inv (ops : List HubOp) (h : Hub) (hh : h.inv) :
    (h.run ops).inv := by
  induction ops generalizing h with
  | nil => exact hh
  | cons op ops ih => exact ih _ (Hub.step_inv h op hh)

/-- C9: in every hub state reachable from the empty registry by any sequence
of `subscribe`, `unsubscribe`, and `send_to_user` operations, every user key
present in the registry maps to a non-empty connection list. -/
theorem hub_reachable_key_nonempty (ops : List HubOp)
    (p : Int × List (Nat × Nat))
    (hp : p ∈ (Hub.run Hub.empty ops).connections) : p.2 ≠ [] :=
  Hub.run_inv ops Hub.empty (by intro q hq; simp [Hub.empty] at hq) p hp

/-- C9 witness: after a single `subscribe 1` from the empty hub, the key `1`
is present with the non-empty list `[(1, 1)]`. -/
theorem hub_reachable_key_nonempty_witness :
    ((1 : Int), [((1 : Nat), (1 : Nat))]) ∈
      (Hub.run Hub.empty [HubOp.subscribe 1]).connections ∧
    ([((1 : Nat), (1 : Nat))] : List (Nat × Nat)) ≠ [] :=
  ⟨by decide,
   hub_reachable_key_nonempty [HubOp.subscribe 1] ((1 : Int), [((1 : Nat), (1 : Nat))])
     (by decide)⟩

/-! ## Implemented karma policy (C10) -/

/-- C10: the handler's transition→karma table is upvote-only: over the vote
state space `{-1,0,1}`, `points_delta` is `+1` exactly when the new value is
`1` and the old one is not, `-1` exactly when the old value is `1` and the
new one is not, and `0` otherwise — in particular the downvote transitions
`(0,-1)` and `(-1,0)` never change karma. -/
theorem points_delta_upvote_only (o n : Int)
    (ho : o = -1 ∨ o = 0 ∨ o = 1) (hn : n = -1 ∨ n = 0 ∨ n = 1) :
    (points_delta o n = 1 ↔ (n = 1 ∧ o ≠ 1)) ∧
    (points_delta o n = -1 ↔ (o = 1 ∧ n ≠ 1)) ∧
    (¬(n = 1 ∧ o ≠ 1) → ¬(o = 1 ∧ n ≠ 1) → points_delta o n = 0) := by
  rcases ho with rfl | rfl | rfl <;> rcases hn with rfl | rfl | rfl <;>
    refine ⟨by decide, by decide, by intro h1 h2; revert h1 h2; decide⟩

/-- C10 witness: the karma table at the fresh-upvote transition `(0, 1)`. -/
theorem points_delta_upvote_only_witness :
    ((0 : Int) = -1 ∨ (0 : Int) = 0 ∨ (0 : Int) = 1) ∧
    ((1 : Int) = -1 ∨ (1 : Int) = 0 ∨ (1 : Int) = 1) ∧
    ((points_delta 0 1 = 1 ↔ ((1 : Int) = 1 ∧ (0 : Int) ≠ 1)) ∧
     (points_delta 0 1 = -1 ↔ ((0 : Int) = 1 ∧ (1 : Int) ≠ 1)) ∧
     (¬((1 : Int) = 1 ∧ (0 : Int) ≠ 1) → ¬((0 : Int) = 1 ∧ (1 : Int) ≠ 1) →
        points_delta 0 1 = 0)) :=
  ⟨by decide, by decide, points_delta_upvote_only 0 1 (by decide) (by decide)⟩

/-! ## Ledger rollback exactness (C7) -/

/-- Folding karma subtraction over a ledger-entry list subtracts each user's
net delta. -/
theorem subtractEntry_foldl (L : List LedgerEntry) :
    ∀ (users : Int → Option Int) (u : Int),
      (L.foldl subtractEntry users) u = (users u).map (· - sumFor L u) := by
  induction L with
  | nil =>
      intro users u
      rw [List.foldl_nil]
      cases users u <;> simp [sumFor]
  | cons e L ih =>
      intro users u
      rw [List.foldl_cons, ih]
      have hs : sumFor (e :: L) u =
          (if e.user_id = u then e.delta else 0) + sumFor L u := by
        simp [sumFor]
      by_cases hu : u = e.user_id
      · subst hu
        rw [subtractEntry, hs]
        simp only [if_pos rfl]
        cases hx : users e.user_id <;> simp [hx, sub_sub]
      · have hu' : ¬ e.user_id = u := fun hx => hu hx.symm
        rw [subtractEntry, hs]
        simp only [if_neg hu, if_neg hu']
        cases users u <;> simp

/-- One successful `apply_vote_points` call either leaves the ledger and
karma untouched (no-op branches) or appends exactly one entry matching the
target reference and credits that entry's user. -/
theorem apply_vote_points_effect (db : PointsDb) (actor : Int)
    (tt : List Nat) (tid delta : Int) (dbm : PointsDb)
    (h : apply_vote_points db actor tt tid delta = .ok dbm) :
    dbm.postAuthor = db.postAuthor ∧ dbm.commentAuthor = db.commentAuthor ∧
    ((dbm.ledger = db.ledger ∧ dbm.users = db.users) ∨
     ∃ entry : LedgerEntry,
       matchesRef tt tid entry = true ∧
       dbm.ledger = db.ledger ++ [entry] ∧
       (∀ u, dbm.users u =
         (db.users u).map (· + (if entry.user_id = u then entry.delta else 0)))) := by
  simp only [apply_vote_points] at h
  by_cases h0 : delta = 0
  · rw [if_pos h0] at h
    injection h with h
    subst h
    exact ⟨rfl, rfl, Or.inl ⟨rfl, rfl⟩⟩
  · rw [if_neg h0] at h
    by_cases htp : tt = strPost
    · rw [if_pos htp] at h
      cases hpa : db.postAuthor tid with
      | none => rw [hpa] at h; cases h
      | some a =>
          rw [hpa] at h
          simp only [] at h
          by_cases hself : a = actor
          · rw [if_pos hself] at h
            injection h with h
            subst h
            exact ⟨rfl, rfl, Or.inl ⟨rfl, rfl⟩⟩
          · rw [if_neg hself] at h
            cases husr : db.users a with
            | none => rw [husr] at h; cases h
            | some karma =>
                rw [husr] at h
                injection h with h
                subst h
                refine ⟨rfl, rfl, Or.inr ⟨_, by simp [matchesRef, htp], rfl, ?_⟩⟩
                intro u
                by_cases hu : a = u
                · subst hu
                  simp [husr]
                · have hu' : ¬ u = a := fun hx => hu hx.symm
                  cases hdu : db.users u <;> simp [hu, hu', hdu]
    · rw [if_neg htp] at h
      by_cases htc : tt = strComment
      · rw [if_pos htc] at h
        cases hca : db.commentAuthor tid with
        | none => rw [hca] at h; cases h
        | some a =>
            rw [hca] at h
            simp only [] at h
            by_cases hself : a = actor
            · rw [if_pos hself] at h
              injection h with h
              subst h
              exact ⟨rfl, rfl, Or.inl ⟨rfl, rfl⟩⟩
            · rw [if_neg hself] at h
              cases husr : db.users a with
              | none => rw [husr] at h; cases h
              | some karma =>
                  rw [husr] at h
                  injection h with h
                  subst h
                  refine ⟨rfl, rfl, Or.inr ⟨_, by simp [matchesRef, htc], rfl, ?_⟩⟩
                  intro u
                  by_cases hu : a = u
                  · subst hu
                    simp [husr]
                  · have hu' : ¬ u = a := fun hx => hu hx.symm
                    cases hdu : db.users u <;> simp [hu, hu', hdu]
      · rw [if_neg htc] at h
        cases h

/-- A successful `apply_vote_points` sequence appends only entries matching
the target reference, and shifts each user's karma by exactly the net delta
of the appended entries. -/
theorem runApplies_effect (tt : List Nat) (tid : Int) :
    ∀ (calls : List (Int × Int)) (db0 db1 : PointsDb),
      runApplies tt tid db0 calls = .ok db1 →
      ∃ added : List LedgerEntry,
        db1.ledger = db0.ledger ++ added ∧
        (∀ e ∈ added, matchesRef tt tid e = true) ∧
        (∀ u, db1.users u = (db0.users u).map (· + sumFor added u)) := by
  intro calls
  induction calls with
  | nil =>
      intro db0 db1 h
      rw [runApplies] at h
      injection h with h
      subst h
      exact ⟨[], by simp, by simp, fun u => by cases db0.users u <;> simp [sumFor]⟩
  | cons call rest ih =>
      intro db0 db1 h
      rw [runApplies] at h
      cases happ : apply_vote_points db0 call.1 tt tid call.2 with
      | error e => rw [happ] at h; cases h
      | ok dbm =>
          rw [happ] at h
          obtain ⟨added, hl, hm, hu⟩ := ih dbm db1 h
          obtain ⟨-, -, heff⟩ := apply_vote_points_effect _ _ _ _ _ _ happ
          rcases heff with ⟨hle, hue⟩ | ⟨entry, hment, hle, hue⟩
          · refine ⟨added, by rw [hl, hle], hm, fun u => ?_⟩
            rw [hu u, hue]
          · refine ⟨entry :: added, ?_, ?_, fun u => ?_⟩
            · rw [hl, hle, List.append_assoc, List.singleton_append]
            · intro e he
              rcases List.mem_cons.mp he with rfl | he
              · exact hment
              · exact hm e he
            · rw [hu u, hue u]
              have hsum : sumFor (entry :: added) u =
                  (if entry.user_id = u then entry.delta else 0) + sumFor added u := by
                simp [sumFor]
              rw [hsum]
              cases db0.users u <;> simp [add_assoc]

set_option maxHeartbeats 800000 in
/-- C7: starting from a database with no ledger rows for the target
reference, any successful sequence of `apply_vote_points` awards followed by
one `rollback_by_ref` restores every user's karma to its pre-award value,
leaves the ledger exactly as it started (zero rows for the reference), and
returns the number of awarded entries; a second `rollback_by_ref` returns 0
and changes nothing. -/
theorem rollback_by_ref_exact (tt : List Nat) (tid : Int)
    (db0 db1 : PointsDb) (calls : List (Int × Int))
    (hclean : ∀ e ∈ db0.ledger, matchesRef tt tid e = false)
    (hrun : runApplies tt tid db0 calls = .ok db1) :
    rollback_by_ref db1 tt tid =
      .ok (((db1.ledger.filter (matchesRef tt tid)).length : Int),
           { db1 with users := db0.users, ledger := db0.ledger }) ∧
    (db1.ledger.filter (matchesRef tt tid)).length + db0.ledger.length =
      db1.ledger.length ∧
    rollback_by_ref { db1 with users := db0.users, ledger := db0.ledger }
        tt tid =
      .ok (0, { db1 with users := db0.users, ledger := db0.ledger }) := by
  obtain ⟨added, hl, hm, hu⟩ := runApplies_effect tt tid calls db0 db1 hrun
  have hfilter : db1.ledger.filter (matchesRef tt tid) = added := by
    rw [hl, List.filter_append,
      List.filter_eq_nil_iff.mpr (fun e he => by simp [hclean e he]),
      List.filter_eq_self.mpr hm, List.nil_append]
  have hclean0 : db0.ledger.filter (matchesRef tt tid) = [] :=
    List.filter_eq_nil_iff.mpr fun e he => by simp [hclean e he]
  have husers : added.foldl subtractEntry db1.users = db0.users := by
    funext u
    rw [subtractEntry_foldl, hu u]
    cases db0.users u <;> simp
  have hkeep : (db1.ledger.filter fun e => ¬ matchesRef tt tid e) = db0.ledger := by
    rw [hl, List.filter_append,
      List.filter_eq_self.mpr (fun e he => by simp [hclean e he]),
      List.filter_eq_nil_iff.mpr (fun e he => by simp [hm e he]),
      List.append_nil]
  refine ⟨?_, ?_, ?_⟩
  · rw [rollback_by_ref, hfilter, husers, hkeep]
  · rw [hfilter, hl]
    simp [Nat.add_comm]
  · rw [rollback_by_ref]
    simp only [hclean0]
    rw [List.filter_eq_self.mpr (fun e he => by simp [hclean e he])]
    rfl

/-- C7 witness: one award of `+1` on post 1 by user 7 (author user 3), then
an exact rollback, on the concrete database `pointsDb0`. -/
theorem rollback_by_ref_exact_witness :
    (∀ e ∈ pointsDb0.ledger, matchesRef strPost 1 e = false) ∧
    runApplies strPost 1 pointsDb0 [(7, 1)] = .ok pointsDb1 ∧
    (rollback_by_ref pointsDb1 strPost 1 =
      .ok (((pointsDb1.ledger.filter (matchesRef strPost 1)).length : Int),
           { pointsDb1 with users := pointsDb0.users, ledger := pointsDb0.ledger }) ∧
     (pointsDb1.ledger.filter (matchesRef strPost 1)).length +
        pointsDb0.ledger.length = pointsDb1.ledger.length ∧
     rollback_by_ref
        { pointsDb1 with
          users := pointsDb0.users
          ledger := pointsDb0.ledger } strPost 1 =
      .ok (0,
        { pointsDb1 with
          users := pointsDb0.users
          ledger := pointsDb0.ledger })) :=
  ⟨by simp [pointsDb0], by rfl,
   rollback_by_ref_exact strPost 1 pointsDb0 pointsDb1 [(7, 1)]
     (by simp [pointsDb0]) (by rfl)⟩
